import Mathlib

/-!
Verification of the yt-transcriber core against its specification.

The Python sources are shallowly embedded: Python `str` values are modelled
as `List Char` (abbreviated `Str`), pure Python functions become Lean
functions, and the effectful parts (file existence checks, yt-dlp calls,
file writes) are modelled by passing explicit effect environments.

Modelling conventions, stated once:
* Python's `re` module is Unicode-aware; the character classes `\w`, `\s`
  and `\d` are modelled at their ASCII meaning ( `[a-zA-Z0-9_]`, the six
  ASCII whitespace characters, `[0-9]` ), which is exact for ASCII input.
* Character classes are written over `Char.toNat` codepoints so that
  arithmetic reasoning is available; comments give the literal characters.
* Python sets (the dedup set of `parse_vtt_transcript`) are modelled as the
  list of inserted elements, queried by membership.
-/

/-- Python `str` is modelled as a list of characters. -/
abbrev Str := List Char

/-- ASCII whitespace, Python's `\s` / `str.strip()` class at ASCII:
space, tab, newline, carriage return, vertical tab, form feed. -/
def isPySpace (c : Char) : Bool :=
  c.toNat = 32 || c.toNat = 9 || c.toNat = 10 || c.toNat = 13 ||
  c.toNat = 11 || c.toNat = 12

/-- Python's `\d` at ASCII: `'0'`(48) .. `'9'`(57). -/
def isPyDigit (c : Char) : Bool :=
  48 ≤ c.toNat && c.toNat ≤ 57

/-- Python's `\w` at ASCII: `a-z`(97-122), `A-Z`(65-90), `0-9`(48-57), `_`(95). -/
def isPyWord (c : Char) : Bool :=
  (97 ≤ c.toNat && c.toNat ≤ 122) || (65 ≤ c.toNat && c.toNat ≤ 90) ||
  (48 ≤ c.toNat && c.toNat ≤ 57) || c.toNat = 95

/-- `str.lstrip()`: drop leading whitespace. -/
def lstripWs (l : Str) : Str := l.dropWhile isPySpace

/-- `str.rstrip()`: drop trailing whitespace. -/
def rstripWs (l : Str) : Str := (l.reverse.dropWhile isPySpace).reverse

/-- `str.strip()`: drop whitespace at both ends. -/
def stripWs (l : Str) : Str := lstripWs (rstripWs l)

/-- `str.lstrip(ch)` for a single-character argument. -/
def lstripChar (sep : Char) (l : Str) : Str := l.dropWhile (· == sep)

/-- `str.rstrip(ch)` for a single-character argument. -/
def rstripChar (sep : Char) (l : Str) : Str :=
  (l.reverse.dropWhile (· == sep)).reverse

/-- `str.strip(ch)` for a single-character argument. -/
def stripChar (sep : Char) (l : Str) : Str := lstripChar sep (rstripChar sep l)

/-- `str.isdigit()` at ASCII: non-empty and all digits. -/
def pyIsDigitStr (l : Str) : Bool := !l.isEmpty && l.all isPyDigit

/-- Value of a non-empty digit string, as `int()` computes it. -/
def digitsToNat (l : Str) : Nat :=
  l.foldl (fun a c => a * 10 + (c.toNat - 48)) 0

/-- Read a maximal run of digits (regex `\d+`); `none` if there is none.
Returns the value and the remaining input. -/
def readNat (l : Str) : Option (Nat × Str) :=
  let ds := l.takeWhile isPyDigit
  if ds.isEmpty then none else some (digitsToNat ds, l.dropWhile isPyDigit)

/-- Consume one expected literal character. -/
def expectChar (c : Char) : Str → Option Str
  | [] => none
  | x :: xs => if x == c then some xs else none

/-- `re.match(r'(\d+):(\d+):(\d+)\.(\d+)', line)` of `parse_vtt_transcript`,
anchored at the start of the line; returns the three captured time fields. -/
def vttTimeMatch (l : Str) : Option (Nat × Nat × Nat) := do
  let (h, r1) ← readNat l
  let r2 ← expectChar ':' r1
  let (m, r3) ← readNat r2
  let r4 ← expectChar ':' r3
  let (s, r5) ← readNat r4
  let r6 ← expectChar '.' r5
  let _ ← readNat r6
  pure (h, m, s)

/-- Scanner for `re.sub(r'<[^>]+>', '', line)`, as a left-to-right state
machine.  `buf` is `none` outside a candidate tag; after an unmatched
`'<'` it holds the characters read since (in reverse).  A `'>'` with a
non-empty buffer closes the match `<[^>]+>` and the whole tag is dropped;
a `'>'` with an empty buffer means the regex fails at that `'<'`
(`[^>]+` needs at least one character), so both characters are kept, which
is exactly where `re.sub`'s scan resumes.  An unclosed `'<'` at the end of
input is kept literally, as the regex never matches it. -/
def stripTagsAux : Option Str → Str → Str
  | none, [] => []
  | some buf, [] => '<' :: buf.reverse
  | none, c :: cs =>
    if c == '<' then stripTagsAux (some []) cs else c :: stripTagsAux none cs
  | some buf, c :: cs =>
    if c == '>' then
      if buf.isEmpty then '<' :: '>' :: stripTagsAux none cs
      else stripTagsAux none cs
    else stripTagsAux (some (c :: buf)) cs

/-- `re.sub(r'<[^>]+>', '', line)`: delete inline markup tags. -/
def stripTags (l : Str) : Str := stripTagsAux none l

/-- Python `f"{n:02d}"`: decimal digits, zero-padded on the left to width 2. -/
def pyPad2 (n : Nat) : Str :=
  if n < 10 then '0' :: Nat.toDigits 10 n else Nat.toDigits 10 n

/-- `downloader.format_timestamp`: `"[{m:02d}:{s:02d}]"` where
`m = total // 60` and `s = total % 60`.  The Python function receives a
float and truncates with `int()`; the claims concern whole-second inputs,
so the embedding takes the truncated value directly. -/
def format_timestamp (seconds : Nat) : Str :=
  ['['] ++ pyPad2 (seconds / 60) ++ [':'] ++ pyPad2 (seconds % 60) ++ [']']

/-- `models.TranscriptEntry`. -/
structure TranscriptEntry where
  timestamp : Str
  text : Str
deriving DecidableEq, Repr

/-- Mutable state of the line loop of `downloader.parse_vtt_transcript`:
the `entries` list, the `current_time` cursor, and the `seen_text` set
(modelled as the list of inserted strings). -/
structure VttState where
  entries : List TranscriptEntry
  current_time : Option Nat
  seen_text : List Str
deriving DecidableEq, Repr

/-- Line classification of `parse_vtt_transcript`: blank lines, the
`WEBVTT` banner, `Kind:` / `Language:` headers, and pure sequence numbers
are skipped. `line` is already stripped. -/
def vttSkipLine (line : Str) : Bool :=
  line.isEmpty || ("WEBVTT".toList).isPrefixOf line ||
  ("Kind:".toList).isPrefixOf line || ("Language:".toList).isPrefixOf line ||
  pyIsDigitStr line

/-- Substring test scanner for Python's `in`. -/
def hasInfixAux (pat : Str) : Str → Bool
  | [] => pat.isPrefixOf []
  | c :: cs => pat.isPrefixOf (c :: cs) || hasInfixAux pat cs

/-- `'-->' in line`. -/
def hasArrow (line : Str) : Bool := hasInfixAux ("-->".toList) line

/-- One iteration of the `for line in ...` loop of `parse_vtt_transcript`. -/
def vttStep (st : VttState) (rawLine : Str) : VttState :=
  let line := stripWs rawLine
  if vttSkipLine line then st
  else if hasArrow line then
    match vttTimeMatch line with
    | some (h, m, s) => { st with current_time := some (h * 3600 + m * 60 + s) }
    | none => st
  else
    let clean := stripTags line
    if !clean.isEmpty && !(st.seen_text.contains clean) then
      { st with
        seen_text := clean :: st.seen_text,
        entries := st.entries ++ [⟨(match st.current_time with
          | some t => format_timestamp t
          | none => "[00:00]".toList), clean⟩] }
    else st

/-- `downloader.parse_vtt_transcript` on the text content of the VTT file
(the file-existence guard is outside the scope of the parsing claims):
split into lines and fold the loop body. -/
def parse_vtt_transcript (content : Str) : List TranscriptEntry :=
  ((content.splitOn '\n').foldl vttStep ⟨[], none, []⟩).entries

/-- State of the same line loop with the deduplication test removed;
used to state what the parser's global dedup filters. -/
structure RawVttState where
  entries : List TranscriptEntry
  current_time : Option Nat
deriving DecidableEq, Repr

/-- The loop body of `parse_vtt_transcript` with the `clean not in
seen_text` test removed: every non-empty cleaned content line is emitted. -/
def rawVttStep (st : RawVttState) (rawLine : Str) : RawVttState :=
  let line := stripWs rawLine
  if vttSkipLine line then st
  else if hasArrow line then
    match vttTimeMatch line with
    | some (h, m, s) => { st with current_time := some (h * 3600 + m * 60 + s) }
    | none => st
  else
    let clean := stripTags line
    if !clean.isEmpty then
      { st with entries := st.entries ++ [⟨(match st.current_time with
        | some t => format_timestamp t
        | none => "[00:00]".toList), clean⟩] }
    else st

/-- All cues of the input without deduplication, in order. -/
def rawCues (content : Str) : List TranscriptEntry :=
  ((content.splitOn '\n').foldl rawVttStep ⟨[], none⟩).entries

/-- Modelled from the spec's words: keep, over the whole sequence, only the
first cue bearing each cleaned text, regardless of timestamp; `seen` is the
set of texts already kept.  Returns the kept cues and the final set. -/
def dedupAux : List TranscriptEntry → List Str → List TranscriptEntry × List Str
  | [], seen => ([], seen)
  | e :: es, seen =>
    if seen.contains e.text then dedupAux es seen
    else
      ((e :: (dedupAux es (e.text :: seen)).1), (dedupAux es (e.text :: seen)).2)

/-- Modelled from the spec's words: global first-occurrence filter by text. -/
def keepFirstByText (es : List TranscriptEntry) : List TranscriptEntry :=
  (dedupAux es []).1

/-- Modelled from the claim's words for C3, for refinement comparison:
`H:MM:SS` when hours > 0, else `M:SS`, wrapped in brackets. -/
def claimTimestampC3 (seconds : Nat) : Str :=
  let h := seconds / 3600
  if 0 < h then
    ['['] ++ Nat.toDigits 10 h ++ [':'] ++ pyPad2 ((seconds % 3600) / 60) ++
      [':'] ++ pyPad2 (seconds % 60) ++ [']']
  else
    ['['] ++ Nat.toDigits 10 (seconds / 60) ++ [':'] ++ pyPad2 (seconds % 60) ++ [']']

/-- Modelled from the amended claim for C3: minutes-and-seconds only, both
fields zero-padded to at least two digits, the minutes field being the whole
quotient by 60 (it exceeds 59 from one hour on; there is no hours field). -/
def amendedTimestampC3 (seconds : Nat) : Str :=
  ['['] ++ pyPad2 (seconds / 60) ++ [':'] ++ pyPad2 (seconds % 60) ++ [']']


/-! Filename sanitization and path building (`src/utils/filename.py`).
The fallback implementations are the code in the repository; the optional
shared-utils import is an environment concern outside the source tree.
`replacement` is modelled as a single character: every call site uses the
default `"_"`, and for one-character strings Python's `re.escape(r)+`
pattern, replacement string and `str.strip(r)` coincide with the
character reading. -/

/-- Characters removed first: `[<>:"/\\|?*\x00-\x1f]`, i.e. `<`(60) `>`(62)
`:`(58) `"`(34) `/`(47) `\`(92) `|`(124) `?`(63) `*`(42) and the control
range 0-31. -/
def pyForbiddenChar (c : Char) : Bool :=
  c.toNat = 60 || c.toNat = 62 || c.toNat = 58 || c.toNat = 34 ||
  c.toNat = 47 || c.toNat = 92 || c.toNat = 124 || c.toNat = 63 ||
  c.toNat = 42 || c.toNat ≤ 31

/-- The class `[\w\s-]` kept by the second substitution; `-` is 45. -/
def keepWordSpaceHyphen (c : Char) : Bool :=
  isPyWord c || isPySpace c || c.toNat = 45

/-- Scanner for `re.sub(p+, sep, l)` where `p` matches single characters:
replaces every maximal run of `p`-characters by one `sep`.  `inRun` records
whether the previous character belonged to a run. -/
def collapseRunsAux (p : Char → Bool) (sep : Char) : Bool → Str → Str
  | _, [] => []
  | inRun, c :: cs =>
    if p c then
      if inRun then collapseRunsAux p sep true cs
      else sep :: collapseRunsAux p sep true cs
    else c :: collapseRunsAux p sep false cs

/-- `re.sub` of one-or-more `p`-characters by a single `sep`. -/
def collapseRuns (p : Char → Bool) (sep : Char) (l : Str) : Str :=
  collapseRunsAux p sep false l

/-- `filename.sanitize_for_filename` (fallback implementation), steps in
source order: empty guard, removal of illegal characters, removal of
non-`[\w\s-]` characters, whitespace-run collapse on the stripped string,
separator-run collapse, separator trim, truncation with trailing-separator
trim, and the `or "untitled"` fallback. -/
def sanitize_for_filename (text : Str) (max_length : Nat) (replacement : Char) : Str :=
  if text.isEmpty then "untitled".toList
  else
    let clean1 := text.filter (fun c => !pyForbiddenChar c)
    let clean2 := clean1.filter keepWordSpaceHyphen
    let clean3 := collapseRuns isPySpace replacement (stripWs clean2)
    let clean4 := collapseRuns (fun c => c == replacement) replacement clean3
    let clean5 := stripChar replacement clean4
    let clean6 :=
      if max_length < clean5.length then rstripChar replacement (clean5.take max_length)
      else clean5
    if clean6.isEmpty then "untitled".toList else clean6

/-- `filename.build_filename`: author capped at 30, topic at `max_length`,
year at 4, joined by underscores. -/
def build_filename (author topic year : Str) (max_length : Nat) : Str :=
  sanitize_for_filename author 30 '_' ++ ('_' :: sanitize_for_filename topic max_length '_') ++
    ('_' :: sanitize_for_filename year 4 '_')

/-- `extension.lstrip('.')`. -/
def lstripDots (ext : Str) : Str := ext.dropWhile (· == '.')

/-- `filename.build_output_path`: `{expanded base}/{author folder}/{filename}.{ext}`.
`expand_path` (home and environment-variable expansion) is an effect of the
execution environment, passed as a function; the `mkdir` side effect does
not influence the returned path and is not modelled. -/
def build_output_path (expand : Str → Str) (base author filename ext : Str) : Str :=
  expand base ++ ('/' :: sanitize_for_filename author 50 '_') ++
    ('/' :: filename) ++ ('.' :: lstripDots ext)

/-- The `while True` loop of `filename.generate_unique_filename`, entered
with `counter = 2`: try `{filename}_{counter}`, return it if fresh,
otherwise bump the counter and fail once it
exceeds 100.  `ex` is the file-existence effect. -/
def uniqueLoop (ex : Str → Bool) (expand : Str → Str)
    (base author filename ext : Str) (counter : Nat) : Except Str Str :=
  let numbered := filename ++ ('_' :: Nat.toDigits 10 counter)
  let path := build_output_path expand base author numbered ext
  if !(ex path) then .ok path
  else if 100 < counter + 1 then
    .error ("Too many files with same name: ".toList ++ filename)
  else uniqueLoop ex expand base author filename ext (counter + 1)
termination_by 101 - counter
decreasing_by omega

/-- `filename.generate_unique_filename`: the base path if fresh, else the
suffix loop from 2. -/
def generate_unique_filename (ex : Str → Bool) (expand : Str → Str)
    (base author topic year ext : Str) : Except Str Str :=
  let filename := build_filename author topic year 50
  let path := build_output_path expand base author filename ext
  if !(ex path) then .ok path
  else uniqueLoop ex expand base author filename ext 2

/-- Modelled from the spec's words: the candidate paths in the order the
collision loop probes them — the plain name, then `_2` … `_100`. -/
def collisionCandidates (expand : Str → Str)
    (base author topic year ext : Str) : List Str :=
  let filename := build_filename author topic year 50
  build_output_path expand base author filename ext ::
    (List.range' 2 99).map
      (fun c => build_output_path expand base author (filename ++ ('_' :: Nat.toDigits 10 c)) ext)

/-! Link extraction (`downloader.extract_links_from_description`). -/

/-- Characters allowed inside a URL match: the regex class `[^\s<>"]`. -/
def urlAllowedChar (c : Char) : Bool :=
  !(isPySpace c || c == '<' || c == '>' || c == '"')

/-- Attempt of `(https?://[^\s<>"]+)` anchored at the head of `l`: the
scheme literal (the optional `s` is decided by the next character, the two
forms being mutually exclusive) followed by a maximal non-empty run of
allowed characters. -/
def tryUrl (l : Str) : Option Str :=
  let n := if ("https://".toList).isPrefixOf l then 8
    else if ("http://".toList).isPrefixOf l then 7
    else 0
  if n = 0 then none
  else
    let run := (l.drop n).takeWhile urlAllowedChar
    if run.isEmpty then none else some (l.take n ++ run)

/-- Scanner for `re.findall(url_pattern, line)`: leftmost non-overlapping
matches; after a match of length `k` the scan resumes `k` characters
further, tracked by the `skip` counter. -/
def findUrlsAux : Nat → Str → List Str
  | _, [] => []
  | skip+1, _ :: cs => findUrlsAux skip cs
  | 0, c :: cs =>
    match tryUrl (c :: cs) with
    | some m => m :: findUrlsAux (m.length - 1) cs
    | none => findUrlsAux 0 cs

/-- `re.findall(r'(https?://[^\s<>"]+)', line)`. -/
def findUrls (line : Str) : List Str := findUrlsAux 0 line

/-- Scanner for `re.sub(url_pattern, '', line)`: same scan, dropping the
matches and keeping everything else. -/
def removeUrlsAux : Nat → Str → Str
  | _, [] => []
  | skip+1, _ :: cs => removeUrlsAux skip cs
  | 0, c :: cs =>
    match tryUrl (c :: cs) with
    | some m => removeUrlsAux (m.length - 1) cs
    | none => c :: removeUrlsAux 0 cs

/-- `re.sub(r'(https?://[^\s<>"]+)', '', line)`. -/
def removeUrls (line : Str) : Str := removeUrlsAux 0 line

/-- One extracted link: `{"url": ..., "context": ...}`. -/
structure Link where
  url : Str
  context : Str
deriving DecidableEq, Repr

/-- Links contributed by one line of the description: nothing when the
line has no URL; otherwise one link per URL, all sharing the line's
context — the line with URL matches removed, stripped, truncated to 100
(`context[:100] if context else ""`). -/
def lineLinks (line : Str) : List Link :=
  let urls := findUrls line
  if urls.isEmpty then []
  else
    let context := stripWs (removeUrls line)
    urls.map (fun u => ⟨u, if context.isEmpty then [] else context.take 100⟩)

/-- `downloader.extract_links_from_description`: empty-text guard, per-line
accumulation in text order, final `links[:20]`. -/
def extract_links_from_description (description : Str) : List Link :=
  if description.isEmpty then []
  else ((description.splitOn '\n').foldl (fun acc line => acc ++ lineLinks line) []).take 20

/-- Modelled from the spec's words: every link of the whole text, in
first-seen order, top-to-bottom by line and left-to-right within a line. -/
def allLinksSpec (description : Str) : List Link :=
  (description.splitOn '\n').flatMap lineLinks

/-! Video-id extraction (`downloader.extract_video_id`). -/

/-- The regex class `[a-zA-Z0-9_-]`. -/
def idChar (c : Char) : Bool := isPyWord c || c.toNat = 45

/-- The alternatives of the non-capturing prefix group, in pattern order. -/
def vidPrefixes : List Str :=
  ["v=".toList, "/v/".toList, "youtu.be/".toList, "/embed/".toList,
   "/shorts/".toList, "/live/".toList]

/-- Match of one alternative at the head of `l`: the literal prefix, then
exactly 11 id characters (whatever follows them is unconstrained). -/
def tryVidAt (p : Str) (l : Str) : Option Str :=
  if p.isPrefixOf l then
    let cand := (l.drop p.length).take 11
    if cand.length = 11 && cand.all idChar then some cand else none
  else none

/-- Match of the full first pattern at the head of `l`: the alternatives
are tried in pattern order (they are mutually exclusive anyway). -/
def tryVid (l : Str) : Option Str := vidPrefixes.findSome? (fun p => tryVidAt p l)

/-- `re.search` of the first pattern: leftmost position at which the
pattern matches. -/
def searchVid : Str → Option Str
  | [] => none
  | c :: cs =>
    match tryVid (c :: cs) with
    | some v => some v
    | none => searchVid cs

/-- `downloader.extract_video_id`: strip the input, search the prefixed
pattern, then the anchored bare-id pattern `^([a-zA-Z0-9_-]{11})$`. -/
def extract_video_id (url : Str) : Option Str :=
  let s := stripWs url
  match searchVid s with
  | some v => some v
  | none => if s.length = 11 && s.all idChar then some s else none

/-! Batch processing (`yt_transcriber_ui.py`).  Streamlit session state is
the mutable state threaded through the render functions; yt-dlp calls and
file writes are effects, modelled as fallible functions supplied in a
`BatchEffects` environment. -/

/-- `models.VideoMeta` (the fields, without `__post_init__` derivation,
which no claim concerns).  `chapters` entries are modelled by the
`start_time`/`title` pair the code reads from them. -/
structure VideoMeta where
  video_id : Str
  url : Str
  title : Str
  channel : Str
  channel_url : Str
  upload_date : Str
  upload_date_formatted : Str
  duration : Nat
  duration_formatted : Str
  view_count : Nat
  like_count : Nat
  channel_follower_count : Nat
  description : Str
  proposed_author : Str
  proposed_topic : Str
  proposed_year : Str
  chapters : List (Nat × Str)
  links : List Link
  selected : Bool
  transcript : List TranscriptEntry
deriving DecidableEq, Repr

/-- `models.ProcessResult`. -/
structure ProcessResult where
  video_id : Str
  url : Str
  status : Str
  message : Str
  title : Str
  files : List Str
deriving DecidableEq, Repr

/-- Effect environment of the processing phase: transcript fetch (yt-dlp,
returns the updated video), the three writers, and path expansion.  Any
exception a call raises is its `Except.error` message. -/
structure BatchEffects where
  fetch_transcript : VideoMeta → Bool → Except Str VideoMeta
  write_markdown : VideoMeta → Str → Except Str Unit
  write_docx : VideoMeta → Str → Except Str Unit
  write_json : VideoMeta → Str → Except Str Unit
  expand_path : Str → Str

/-- The body of the `try` block of `process_and_save_video`: fetch, build
the filename from the approved fields, write the three outputs, in source
order; the first failure aborts the rest of the block. -/
def processAttempt (eff : BatchEffects) (output_base : Str) (include_links : Bool)
    (flMax : Nat) (video : VideoMeta) : Except Str (Str × Str × List Str) := do
  let video ← eff.fetch_transcript video include_links
  let filename := build_filename video.proposed_author video.proposed_topic
    video.proposed_year flMax
  let md_path := build_output_path eff.expand_path output_base
    video.proposed_author filename "md".toList
  let _ ← eff.write_markdown video md_path
  let docx_path := build_output_path eff.expand_path output_base
    video.proposed_author filename "docx".toList
  let _ ← eff.write_docx video docx_path
  let json_path := build_output_path eff.expand_path output_base
    video.proposed_author filename "json".toList
  let _ ← eff.write_json video json_path
  pure (filename, video.title, [md_path, docx_path, json_path])

/-- `yt_transcriber_ui.process_and_save_video`: the result starts as
`status="error"`; on a clean run of the `try` block it is upgraded to
`success` with message, title and files; an exception anywhere in the
block leaves `status="error"` and stores the message. -/
def process_and_save_video (eff : BatchEffects) (output_base : Str)
    (include_links : Bool) (flMax : Nat) (video : VideoMeta) : ProcessResult :=
  match processAttempt eff output_base include_links flMax video with
  | .ok (filename, title, files) =>
    { video_id := video.video_id, url := video.url, status := "success".toList,
      message := "Saved: ".toList ++ filename, title := title, files := files }
  | .error e =>
    { video_id := video.video_id, url := video.url, status := "error".toList,
      message := e, title := [], files := [] }

/-- The result list built by the loop of `render_processing_phase`: the
frozen set is the selected videos in original order, and the loop appends
one result per video. -/
def render_processing_results (eff : BatchEffects) (output_base : Str)
    (include_links : Bool) (flMax : Nat) (pending : List VideoMeta) : List ProcessResult :=
  (pending.filter (·.selected)).map (process_and_save_video eff output_base include_links flMax)

/-- Streamlit session state as used by the UI phase machine. -/
structure SessionState where
  phase : Str
  pending_videos : List VideoMeta
  results : List ProcessResult
deriving DecidableEq, Repr

/-- The decision tail of `render_review_phase`, after the edits have been
applied to `pending_videos`: a Back click resets the state; a Save click
moves to `processing` — but the Save button is rendered with
`disabled=selected_count == 0`, and a disabled Streamlit button never
reports a click, so `save_btn` is the conjunction below.  A Back click
ends in `st.rerun()`, so Save is not examined after it. -/
def render_review_decision (st : SessionState) (backClicked saveClicked : Bool) : SessionState :=
  let selected_count := (st.pending_videos.filter (·.selected)).length
  let back_btn := backClicked
  let save_btn := saveClicked && !(selected_count == 0)
  if back_btn then { phase := "input".toList, pending_videos := [], results := [] }
  else if save_btn then { st with phase := "processing".toList }
  else st

/-- Invariant characterizing the sanitizer's output for the default
separator `'_'`: non-empty; every character a word character or hyphen;
no two adjacent underscores; no underscore at either end; length within
the cap. -/
def SanitizedInv (m : Nat) (l : Str) : Prop :=
  l ≠ [] ∧
  (∀ c ∈ l, (isPyWord c || c.toNat = 45) = true) ∧
  l.Chain' (fun a b => ¬(a = '_' ∧ b = '_')) ∧
  l.head? ≠ some '_' ∧
  l.getLast? ≠ some '_' ∧
  l.length ≤ m

/-- Concrete video fixture used by witness statements: only the id and the
selection flag vary. -/
def sampleVideo (id : Str) (sel : Bool) : VideoMeta :=
  { video_id := id, url := id, title := id, channel := [], channel_url := [],
    upload_date := [], upload_date_formatted := [], duration := 0,
    duration_formatted := [], view_count := 0, like_count := 0,
    channel_follower_count := 0, description := [], proposed_author := [],
    proposed_topic := [], proposed_year := [], chapters := [], links := [],
    selected := sel, transcript := [] }

/-- Concrete effect environment for witness statements: every operation
succeeds except fetching the video with id `b`, which raises `boom`. -/
def sampleEffects : BatchEffects :=
  { fetch_transcript := fun v _ =>
      if v.video_id = ['b'] then .error "boom".toList else .ok v,
    write_markdown := fun _ _ => .ok (),
    write_docx := fun _ _ => .ok (),
    write_json := fun _ _ => .ok (),
    expand_path := fun s => s }

/-! Generic list lemmas shared by several developments below. -/

theorem dropWhile_append_all {p : Char → Bool} {a : Str} (b : Str)
    (h : ∀ c ∈ a, p c = true) : (a ++ b).dropWhile p = b.dropWhile p := by
  induction a with
  | nil => rfl
  | cons x xs ih =>
    simp only [List.cons_append, List.dropWhile_cons, h x (by simp)]
    exact ih (fun c hc => h c (by simp [hc]))

theorem dropWhile_append_ne_nil {p : Char → Bool} {a : Str} (b : Str)
    (h : a.dropWhile p ≠ []) : (a ++ b).dropWhile p = a.dropWhile p ++ b := by
  induction a with
  | nil => exact absurd rfl h
  | cons x xs ih =>
    by_cases hp : p x
    · rw [List.dropWhile_cons_of_pos hp] at h
      simp only [List.cons_append, List.dropWhile_cons_of_pos hp]
      exact ih h
    · simp only [List.cons_append,
        List.dropWhile_cons_of_neg hp]

theorem dropWhile_eq_nil_all {p : Char → Bool} {l : Str}
    (h : ∀ c ∈ l, p c = true) : l.dropWhile p = [] := by
  induction l with
  | nil => rfl
  | cons x xs ih =>
    simp only [List.dropWhile_cons, h x (by simp)]
    exact ih (fun c hc => h c (by simp [hc]))

theorem dropWhile_eq_self_none {p : Char → Bool} {l : Str}
    (h : ∀ c ∈ l, p c = false) : l.dropWhile p = l := by
  cases l with
  | nil => rfl
  | cons x xs => simp [List.dropWhile_cons, h x (by simp)]

theorem rstripWs_append_all {ws : Str} (l : Str)
    (h : ∀ c ∈ ws, isPySpace c = true) : rstripWs (l ++ ws) = rstripWs l := by
  unfold rstripWs
  rw [List.reverse_append, dropWhile_append_all _ (fun c hc => h c (by simpa using hc))]

theorem lstripWs_all_append {ws : Str} (l : Str)
    (h : ∀ c ∈ ws, isPySpace c = true) : lstripWs (ws ++ l) = lstripWs l :=
  dropWhile_append_all l h

theorem stripWs_append_ws {ws : Str} (l : Str)
    (h : ∀ c ∈ ws, isPySpace c = true) : stripWs (l ++ ws) = stripWs l := by
  unfold stripWs
  rw [rstripWs_append_all l h]

theorem stripWs_ws_append {ws : Str} (l : Str)
    (h : ∀ c ∈ ws, isPySpace c = true) : stripWs (ws ++ l) = stripWs l := by
  unfold stripWs
  by_cases hr : l.reverse.dropWhile isPySpace = []
  · have hall : ∀ c ∈ (ws ++ l).reverse, isPySpace c = true := by
      intro c hc
      rw [List.reverse_append] at hc
      rcases List.mem_append.mp hc with h1 | h1
      · have := List.dropWhile_eq_nil_iff.mp hr c h1
        simpa using this
      · exact h c (by simpa using h1)
    unfold rstripWs
    rw [dropWhile_eq_nil_all hall, hr]
  · unfold rstripWs
    rw [List.reverse_append, dropWhile_append_ne_nil _ hr, List.reverse_append]
    unfold lstripWs
    rw [dropWhile_append_all _ (fun c hc => h c (by simpa using hc))]

/-! Claim C3: the transcript timestamp format. -/

/-- Claim C3, counterexample: the claim's `H:MM:SS`-when-hours format
disagrees with the code at one hour — `format_timestamp` renders 3600
seconds as `[60:00]`, not `[1:00:00]`. -/
theorem c3_counterexample :
    format_timestamp 3600 = "[60:00]".toList ∧
    claimTimestampC3 3600 = "[1:00:00]".toList ∧
    format_timestamp 3600 ≠ claimTimestampC3 3600 := by
  refine ⟨by decide, by decide, by decide⟩

/-- Claim C3 (amended): for every whole-second time the transcript
timestamp is minutes-and-seconds only, `[MM:SS]`, both fields zero-padded
to at least two digits, the minutes field being the whole quotient by 60
(so it exceeds 59 from one hour on; there is no hours field); the
sentinel unknown-time cue `[00:00]` is this same format at time zero. -/
theorem c3_timestamp_format (n : Nat) :
    format_timestamp n = amendedTimestampC3 n ∧
    "[00:00]".toList = format_timestamp 0 :=
  ⟨rfl, by decide⟩

/-! Claim C6: treatment of content lines that are blank after tag
stripping. -/

/-- Claim C6, counterexample: a content line whose tag-stripped text is
whitespace-only but non-empty (here a single space between tags) is NOT
discarded: it is emitted as a cue and it is counted toward deduplication —
the second such line is suppressed by it. -/
theorem c6_counterexample :
    parse_vtt_transcript
        "00:00:01.000 --> 00:00:02.000\n<c> </c>\n<i> </i>".toList =
      [⟨"[00:01]".toList, [' ']⟩] ∧
    ([' '] : Str).all isPySpace = true := by
  refine ⟨by decide, by decide⟩

/-- Claim C6 (amended): a content line whose text is EMPTY after inline
tags are stripped is discarded — it produces no cue and is not added to
the deduplication set (the whole parser state is unchanged).  Input lines
are stripped of surrounding whitespace before processing; a tag-stripped
text that is whitespace-only but non-empty is emitted and deduplicated
like any other text. -/
theorem c6_empty_clean_discarded (st : VttState) (line : Str)
    (h1 : vttSkipLine (stripWs line) = false)
    (h2 : hasArrow (stripWs line) = false)
    (h3 : stripTags (stripWs line) = []) :
    vttStep st line = st := by
  unfold vttStep
  simp [h1, h2, h3]

/-- Claim C6, witness: the amended theorem applied to the line
`<c></c>`, whose tag-stripped text is empty, from a representative state. -/
theorem c6_empty_clean_discarded_witness :
    vttSkipLine (stripWs "<c></c>".toList) = false ∧
    hasArrow (stripWs "<c></c>".toList) = false ∧
    stripTags (stripWs "<c></c>".toList) = [] ∧
    vttStep ⟨[⟨"[00:01]".toList, ['a']⟩], some 7, [['a']]⟩ "<c></c>".toList =
      ⟨[⟨"[00:01]".toList, ['a']⟩], some 7, [['a']]⟩ :=
  ⟨by decide, by decide, by decide,
    c6_empty_clean_discarded _ _ (by decide) (by decide) (by decide)⟩

/-! Claim C4: the review-to-processing transition with zero selected
items. -/

/-- Claim C4: attempting the review → processing transition with zero
selected items is rejected: the Save button is disabled, so the state is
unchanged — the phase stays `review`, and the item set and results are
untouched. -/
theorem c4_zero_selected_rejected (st : SessionState) (save : Bool)
    (hphase : st.phase = "review".toList)
    (hzero : (st.pending_videos.filter (·.selected)).length = 0) :
    render_review_decision st false save = st ∧
    (render_review_decision st false save).phase = "review".toList := by
  unfold render_review_decision
  simp [hzero, hphase]

/-- Claim C4, witness: the rejection theorem applied to a review state
with one unselected video and a Save click. -/
theorem c4_zero_selected_rejected_witness :
    (SessionState.mk "review".toList [sampleVideo ['a'] false] []).phase = "review".toList ∧
    ((SessionState.mk "review".toList [sampleVideo ['a'] false] []).pending_videos.filter
      (·.selected)).length = 0 ∧
    render_review_decision (SessionState.mk "review".toList [sampleVideo ['a'] false] []) false true =
      SessionState.mk "review".toList [sampleVideo ['a'] false] [] :=
  ⟨by decide, by decide,
    (c4_zero_selected_rejected _ true (by decide) (by decide)).1⟩

/-! Claim C1: per-item isolation of the processing loop. -/

/-- Claim C1: processing the frozen batch yields exactly one result per
selected item, in original order — result `i` is fully determined by
selected item `i` alone, so one item's failure never prevents or alters
the others' results — and when an item's try-block (fetch, filename
build, write) raises, that item's result carries `status="error"` with
the raised message and no files. -/
theorem c1_batch_isolation (eff : BatchEffects) (ob : Str) (il : Bool)
    (fl : Nat) (pending : List VideoMeta) :
    (render_processing_results eff ob il fl pending).length =
      (pending.filter (·.selected)).length ∧
    (∀ i : Nat, (render_processing_results eff ob il fl pending)[i]? =
      ((pending.filter (·.selected))[i]?).map (process_and_save_video eff ob il fl)) ∧
    (∀ v e, processAttempt eff ob il fl v = .error e →
      process_and_save_video eff ob il fl v =
        { video_id := v.video_id, url := v.url, status := "error".toList,
          message := e, title := [], files := [] }) := by
  refine ⟨by simp [render_processing_results], ?_, ?_⟩
  · intro i
    simp [render_processing_results, List.getElem?_map]
  · intro v e h
    simp [process_and_save_video, h]

/-- Claim C1, witness: the spec's own scenario — a batch of three selected
items where the middle item's fetch raises produces exactly three results,
`success`, `error`, `success`, and the failing item's result carries the
raised message. -/
theorem c1_batch_isolation_witness :
    processAttempt sampleEffects [] true 50 (sampleVideo ['b'] true) = .error "boom".toList ∧
    process_and_save_video sampleEffects [] true 50 (sampleVideo ['b'] true) =
      { video_id := ['b'], url := ['b'], status := "error".toList,
        message := "boom".toList, title := [], files := [] } ∧
    (render_processing_results sampleEffects [] true 50
      [sampleVideo ['a'] true, sampleVideo ['b'] true, sampleVideo ['c'] true]).length = 3 ∧
    (render_processing_results sampleEffects [] true 50
      [sampleVideo ['a'] true, sampleVideo ['b'] true, sampleVideo ['c'] true]).map (·.status) =
      ["success".toList, "error".toList, "success".toList] :=
  ⟨rfl,
    (c1_batch_isolation sampleEffects [] true 50
      [sampleVideo ['a'] true, sampleVideo ['b'] true, sampleVideo ['c'] true]).2.2
      (sampleVideo ['b'] true) "boom".toList rfl,
    by decide, by decide⟩

/-! Claim C2: collision resolution of `generate_unique_filename`. -/

theorem uniqueLoop_spec (ex : Str → Bool) (expand : Str → Str)
    (base author filename ext : Str) :
    ∀ n c, c + n = 100 →
    uniqueLoop ex expand base author filename ext c =
      match ((List.range' c (n+1)).map
          (fun k => build_output_path expand base author
            (filename ++ ('_' :: Nat.toDigits 10 k)) ext)).find? (fun p => !(ex p)) with
      | some p => Except.ok p
      | none => Except.error ("Too many files with same name: ".toList ++ filename) := by
  intro n
  induction n with
  | zero =>
    intro c hc
    have hc100 : c = 100 := by omega
    subst hc100
    rw [uniqueLoop]
    by_cases hex : ex (build_output_path expand base author
      (filename ++ ('_' :: Nat.toDigits 10 100)) ext)
    · simp [hex, List.find?]
    · simp [hex, List.find?]
  | succ m ih =>
    intro c hc
    rw [uniqueLoop]
    have hrange : List.range' c (m + 1 + 1) = c :: List.range' (c + 1) (m + 1) :=
      List.range'_succ c (m + 1) 1
    rw [hrange]
    by_cases hex : ex (build_output_path expand base author
      (filename ++ ('_' :: Nat.toDigits 10 c)) ext)
    · have hlt : ¬ (100 < c + 1) := by omega
      rw [ih (c + 1) (by omega)]
      simp [hex, hlt, List.find?]
    · simp [hex, List.find?]

/-- Claim C2: for every naming triple, base directory, extension and
file-existence environment, `generate_unique_filename` returns the first
candidate path that does not exist, probing in order the plain composed
name, then `_2`, `_3`, … appended to the whole base filename — never to a
sanitized sub-component, as the candidate list is built from the finished
`build_filename` result — and when all 100 probed candidates (the plain
name and suffixes 2 … 100) exist it fails with the naming-exhausted
error instead of returning a path. -/
theorem c2_unique_filename (ex : Str → Bool) (expand : Str → Str)
    (base author topic year ext : Str) :
    generate_unique_filename ex expand base author topic year ext =
      match (collisionCandidates expand base author topic year ext).find?
          (fun p => !(ex p)) with
      | some p => Except.ok p
      | none => Except.error ("Too many files with same name: ".toList ++
          build_filename author topic year 50) := by
  have hcand : collisionCandidates expand base author topic year ext =
      build_output_path expand base author (build_filename author topic year 50) ext ::
        (List.range' 2 99).map (fun c => build_output_path expand base author
          (build_filename author topic year 50 ++ ('_' :: Nat.toDigits 10 c)) ext) := rfl
  rw [hcand]
  unfold generate_unique_filename
  dsimp only
  by_cases hex : ex (build_output_path expand base author
    (build_filename author topic year 50) ext)
  · rw [uniqueLoop_spec ex expand base author (build_filename author topic year 50) ext 98 2 rfl]
    rw [List.find?_cons]
    simp [hex]
  · rw [List.find?_cons]
    simp [hex]

/-! Claim C10: shape of extracted video ids and whitespace insensitivity. -/

theorem tryVidAt_shape {p l v : Str} (h : tryVidAt p l = some v) :
    v.length = 11 ∧ v.all idChar = true := by
  unfold tryVidAt at h
  split at h
  · dsimp only at h
    split at h
    · rename_i hg
      cases h
      simp only [Bool.and_eq_true] at hg
      exact ⟨of_decide_eq_true hg.1, hg.2⟩
    · exact absurd h (by simp)
  · exact absurd h (by simp)

theorem tryVid_shape {l v : Str} (h : tryVid l = some v) :
    v.length = 11 ∧ v.all idChar = true := by
  obtain ⟨p, _, hp⟩ := List.exists_of_findSome?_eq_some h
  exact tryVidAt_shape hp

theorem searchVid_shape : ∀ l v, searchVid l = some v →
    v.length = 11 ∧ v.all idChar = true := by
  intro l
  induction l with
  | nil => intro v h; simp [searchVid] at h
  | cons c cs ih =>
    intro v h
    unfold searchVid at h
    cases htv : tryVid (c :: cs) with
    | some w =>
      rw [htv] at h
      cases h
      exact tryVid_shape htv
    | none =>
      rw [htv] at h
      exact ih v h

/-- Claim C10: `extract_video_id` returns `none` or a string of exactly 11
characters drawn from `[a-zA-Z0-9_-]`, and surrounding whitespace on the
input never changes the result. -/
theorem c10_video_id (url : Str) :
    (∀ v, extract_video_id url = some v → v.length = 11 ∧ v.all idChar = true) ∧
    (∀ ws1 ws2 : Str, ws1.all isPySpace = true → ws2.all isPySpace = true →
      extract_video_id (ws1 ++ url ++ ws2) = extract_video_id url) := by
  constructor
  · intro v h
    unfold extract_video_id at h
    dsimp only at h
    cases hs : searchVid (stripWs url) with
    | some w =>
      rw [hs] at h
      cases h
      exact searchVid_shape _ _ hs
    | none =>
      rw [hs] at h
      dsimp only at h
      split at h
      · rename_i hg
        cases h
        simp only [Bool.and_eq_true] at hg
        exact ⟨of_decide_eq_true hg.1, hg.2⟩
      · exact absurd h (by simp)
  · intro ws1 ws2 h1 h2
    have hstrip : stripWs (ws1 ++ url ++ ws2) = stripWs url := by
      rw [stripWs_append_ws (ws1 ++ url) (List.all_eq_true.mp h2),
        stripWs_ws_append url (List.all_eq_true.mp h1)]
    unfold extract_video_id
    rw [hstrip]

/-- Claim C10, witness: the shape and whitespace conclusions at the URL
`v=abcdefghijk` padded with one space on each side. -/
theorem c10_video_id_witness :
    (("abcdefghijk".toList).length = 11 ∧ ("abcdefghijk".toList).all idChar = true) ∧
    extract_video_id ([' '] ++ "v=abcdefghijk".toList ++ [' ']) =
      extract_video_id "v=abcdefghijk".toList :=
  ⟨(c10_video_id "v=abcdefghijk".toList).1 "abcdefghijk".toList (by decide),
    (c10_video_id "v=abcdefghijk".toList).2 [' '] [' '] (by decide) (by decide)⟩

/-! Claim C9: link extraction. -/

theorem foldl_append_links (lines : List Str) :
    ∀ init : List Link,
      lines.foldl (fun acc line => acc ++ lineLinks line) init =
        init ++ lines.flatMap lineLinks := by
  induction lines with
  | nil => intro init; simp
  | cons l ls ih =>
    intro init
    simp only [List.foldl_cons, List.flatMap_cons, ih (init ++ lineLinks l),
      List.append_assoc]

theorem extract_links_take (d : Str) :
    extract_links_from_description d = (allLinksSpec d).take 20 := by
  unfold extract_links_from_description allLinksSpec
  by_cases hd : d.isEmpty
  · have hnil : d = [] := by
      cases d with
      | nil => rfl
      | cons x xs => simp at hd
    subst hnil
    decide
  · rw [if_neg (by simp [hd]), foldl_append_links, List.nil_append]

/-- Claim C9: link extraction returns the first-seen links of the text,
truncated to 20: it is empty when no line has a URL match; it has exactly
20 entries when the text holds more than 20 URLs, dropping later links
rather than reordering (the result is always a prefix of the full
first-seen link list); and every returned link carries its line's context,
the line with all URL matches removed, stripped and truncated to 100
characters. -/
theorem c9_link_extraction (d : Str) :
    extract_links_from_description d = (allLinksSpec d).take 20 ∧
    ((∀ line ∈ d.splitOn '\n', findUrls line = []) →
      extract_links_from_description d = []) ∧
    (20 < (allLinksSpec d).length →
      (extract_links_from_description d).length = 20) ∧
    (∀ lk ∈ extract_links_from_description d, ∃ line ∈ d.splitOn '\n',
      lk.url ∈ findUrls line ∧ lk.context = (stripWs (removeUrls line)).take 100) := by
  refine ⟨extract_links_take d, ?_, ?_, ?_⟩
  · intro hnone
    rw [extract_links_take d]
    have hflat : allLinksSpec d = [] := by
      unfold allLinksSpec
      rw [List.flatMap_eq_nil_iff]
      intro line hline
      unfold lineLinks
      rw [hnone line hline]
      rfl
    rw [hflat]
    rfl
  · intro hlen
    rw [extract_links_take d, List.length_take]
    omega
  · intro lk hmem
    rw [extract_links_take d] at hmem
    have hmem2 : lk ∈ allLinksSpec d := List.mem_of_mem_take hmem
    unfold allLinksSpec at hmem2
    obtain ⟨line, hline, hlk⟩ := List.mem_flatMap.mp hmem2
    refine ⟨line, hline, ?_⟩
    unfold lineLinks at hlk
    dsimp only at hlk
    split at hlk
    · exact absurd hlk (by simp)
    · obtain ⟨u, hu, rfl⟩ := List.mem_map.mp hlk
      refine ⟨hu, ?_⟩
      dsimp only
      by_cases hctx : (stripWs (removeUrls line)).isEmpty
      · have : stripWs (removeUrls line) = [] := by
          cases hh : stripWs (removeUrls line) with
          | nil => rfl
          | cons x xs => rw [hh] at hctx; simp at hctx
        simp [hctx, this]
      · simp [hctx]

/-- Claim C9, witness: the extraction conclusions applied to a text with
no URLs and to a single line carrying 21 URLs. -/
theorem c9_link_extraction_witness :
    (∀ line ∈ ("hello\nworld".toList).splitOn '\n', findUrls line = []) ∧
    extract_links_from_description "hello\nworld".toList = [] ∧
    20 < (allLinksSpec "http://a http://a http://a http://a http://a http://a http://a http://a http://a http://a http://a http://a http://a http://a http://a http://a http://a http://a http://a http://a http://a".toList).length ∧
    (extract_links_from_description "http://a http://a http://a http://a http://a http://a http://a http://a http://a http://a http://a http://a http://a http://a http://a http://a http://a http://a http://a http://a http://a".toList).length = 20 ∧
    (⟨"http://a".toList, []⟩ : Link) ∈ extract_links_from_description "http://a http://a http://a http://a http://a http://a http://a http://a http://a http://a http://a http://a http://a http://a http://a http://a http://a http://a http://a http://a http://a".toList ∧
    (∃ line ∈ ("http://a http://a http://a http://a http://a http://a http://a http://a http://a http://a http://a http://a http://a http://a http://a http://a http://a http://a http://a http://a http://a".toList).splitOn '\n',
      ("http://a".toList) ∈ findUrls line ∧
      ((⟨"http://a".toList, []⟩ : Link)).context = (stripWs (removeUrls line)).take 100) :=
  ⟨by decide,
    (c9_link_extraction "hello\nworld".toList).2.1 (by decide),
    by decide,
    (c9_link_extraction "http://a http://a http://a http://a http://a http://a http://a http://a http://a http://a http://a http://a http://a http://a http://a http://a http://a http://a http://a http://a http://a".toList).2.2.1 (by decide),
    by decide,
    (c9_link_extraction "http://a http://a http://a http://a http://a http://a http://a http://a http://a http://a http://a http://a http://a http://a http://a http://a http://a http://a http://a http://a http://a".toList).2.2.2 ⟨"http://a".toList, []⟩ (by decide)⟩

/-! Claim C5: global deduplication of the cue parser. -/

theorem vttStep_skip (st : VttState) (l : Str)
    (h1 : vttSkipLine (stripWs l) = true) : vttStep st l = st := by
  unfold vttStep
  simp [h1]

theorem vttStep_arrow (st : VttState) (l : Str)
    (h1 : vttSkipLine (stripWs l) = false) (h2 : hasArrow (stripWs l) = true) :
    vttStep st l =
      (match vttTimeMatch (stripWs l) with
        | some (h, m, s) => { st with current_time := some (h * 3600 + m * 60 + s) }
        | none => st) := by
  unfold vttStep
  simp [h1, h2]

theorem vttStep_content_dead (st : VttState) (l : Str)
    (h1 : vttSkipLine (stripWs l) = false) (h2 : hasArrow (stripWs l) = false)
    (h3 : (!(stripTags (stripWs l)).isEmpty &&
      !(st.seen_text.contains (stripTags (stripWs l)))) = false) :
    vttStep st l = st := by
  unfold vttStep
  simp only [h1, h2, h3]
  simp

theorem vttStep_content_new (st : VttState) (l : Str)
    (h1 : vttSkipLine (stripWs l) = false) (h2 : hasArrow (stripWs l) = false)
    (h3 : (!(stripTags (stripWs l)).isEmpty &&
      !(st.seen_text.contains (stripTags (stripWs l)))) = true) :
    vttStep st l =
      { st with
        seen_text := stripTags (stripWs l) :: st.seen_text,
        entries := st.entries ++ [⟨(match st.current_time with
          | some t => format_timestamp t
          | none => "[00:00]".toList), stripTags (stripWs l)⟩] } := by
  unfold vttStep
  simp only [h1, h2, h3]
  simp

theorem rawVttStep_skip (st : RawVttState) (l : Str)
    (h1 : vttSkipLine (stripWs l) = true) : rawVttStep st l = st := by
  unfold rawVttStep
  simp [h1]

theorem rawVttStep_arrow (st : RawVttState) (l : Str)
    (h1 : vttSkipLine (stripWs l) = false) (h2 : hasArrow (stripWs l) = true) :
    rawVttStep st l =
      (match vttTimeMatch (stripWs l) with
        | some (h, m, s) => { st with current_time := some (h * 3600 + m * 60 + s) }
        | none => st) := by
  unfold rawVttStep
  simp [h1, h2]

theorem rawVttStep_content_empty (st : RawVttState) (l : Str)
    (h1 : vttSkipLine (stripWs l) = false) (h2 : hasArrow (stripWs l) = false)
    (h3 : (stripTags (stripWs l)).isEmpty = true) :
    rawVttStep st l = st := by
  unfold rawVttStep
  simp [h1, h2, h3]

theorem rawVttStep_content (st : RawVttState) (l : Str)
    (h1 : vttSkipLine (stripWs l) = false) (h2 : hasArrow (stripWs l) = false)
    (h3 : (stripTags (stripWs l)).isEmpty = false) :
    rawVttStep st l =
      { st with entries := st.entries ++ [⟨(match st.current_time with
          | some t => format_timestamp t
          | none => "[00:00]".toList), stripTags (stripWs l)⟩] } := by
  unfold rawVttStep
  simp [h1, h2, h3]

theorem rawVttStep_append (E : List TranscriptEntry) (t : Option Nat) (l : Str) :
    rawVttStep ⟨E, t⟩ l =
      ⟨E ++ (rawVttStep ⟨[], t⟩ l).entries, (rawVttStep ⟨[], t⟩ l).current_time⟩ := by
  by_cases h1 : vttSkipLine (stripWs l)
  · rw [rawVttStep_skip _ _ h1, rawVttStep_skip _ _ h1]
    simp
  · by_cases h2 : hasArrow (stripWs l)
    · rw [rawVttStep_arrow _ _ (by simpa using h1) h2,
        rawVttStep_arrow _ _ (by simpa using h1) h2]
      cases h3 : vttTimeMatch (stripWs l) with
      | some hms => obtain ⟨h, m, s⟩ := hms; simp
      | none => simp
    · by_cases h4 : (stripTags (stripWs l)).isEmpty
      · rw [rawVttStep_content_empty _ _ (by simpa using h1) (by simpa using h2) h4,
          rawVttStep_content_empty _ _ (by simpa using h1) (by simpa using h2) h4]
        simp
      · rw [rawVttStep_content _ _ (by simpa using h1) (by simpa using h2) (by simpa using h4),
          rawVttStep_content _ _ (by simpa using h1) (by simpa using h2) (by simpa using h4)]
        simp

theorem rawFold_append (lines : List Str) :
    ∀ (E : List TranscriptEntry) (t : Option Nat),
      lines.foldl rawVttStep ⟨E, t⟩ =
        ⟨E ++ (lines.foldl rawVttStep ⟨[], t⟩).entries,
          (lines.foldl rawVttStep ⟨[], t⟩).current_time⟩ := by
  induction lines with
  | nil => intro E t; simp
  | cons l ls ih =>
    intro E t
    simp only [List.foldl_cons, rawVttStep_append E t l]
    cases hstep : rawVttStep ⟨[], t⟩ l with
    | mk E0 t0 =>
      dsimp only
      rw [ih (E ++ E0) t0, ih E0 t0]
      simp [List.append_assoc]

theorem dedupAux_cons_seen {ts cl : Str} {es : List TranscriptEntry}
    {seen : List Str} (h : seen.contains cl = true) :
    dedupAux (⟨ts, cl⟩ :: es) seen = dedupAux es seen := by
  show (if seen.contains cl = true then dedupAux es seen
    else ((⟨ts, cl⟩ :: (dedupAux es (cl :: seen)).1), (dedupAux es (cl :: seen)).2)) =
    dedupAux es seen
  rw [if_pos h]

theorem dedupAux_cons_new {ts cl : Str} {es : List TranscriptEntry}
    {seen : List Str} (h : seen.contains cl = false) :
    dedupAux (⟨ts, cl⟩ :: es) seen =
      ((⟨ts, cl⟩ :: (dedupAux es (cl :: seen)).1), (dedupAux es (cl :: seen)).2) := by
  show (if seen.contains cl = true then dedupAux es seen
    else ((⟨ts, cl⟩ :: (dedupAux es (cl :: seen)).1), (dedupAux es (cl :: seen)).2)) =
    ((⟨ts, cl⟩ :: (dedupAux es (cl :: seen)).1), (dedupAux es (cl :: seen)).2)
  rw [if_neg (by rw [h]; simp)]

theorem vtt_fold_dedup (lines : List Str) :
    ∀ (E : List TranscriptEntry) (t : Option Nat) (S : List Str),
      lines.foldl vttStep ⟨E, t, S⟩ =
        ⟨E ++ (dedupAux (lines.foldl rawVttStep ⟨[], t⟩).entries S).1,
          (lines.foldl rawVttStep ⟨[], t⟩).current_time,
          (dedupAux (lines.foldl rawVttStep ⟨[], t⟩).entries S).2⟩ := by
  induction lines with
  | nil => intro E t S; simp [dedupAux]
  | cons l ls ih =>
    intro E t S
    simp only [List.foldl_cons]
    by_cases h1 : vttSkipLine (stripWs l)
    · rw [vttStep_skip _ _ h1, rawVttStep_skip _ _ h1, ih E t S]
    · by_cases h2 : hasArrow (stripWs l)
      · rw [vttStep_arrow _ _ (by simpa using h1) h2,
          rawVttStep_arrow _ _ (by simpa using h1) h2]
        cases h3 : vttTimeMatch (stripWs l) with
        | some hms =>
          obtain ⟨hh, mm, ss⟩ := hms
          dsimp only
          rw [ih E (some (hh * 3600 + mm * 60 + ss)) S]
        | none =>
          dsimp only
          rw [ih E t S]
      · by_cases h4 : (stripTags (stripWs l)).isEmpty
        · have hdead : (!(stripTags (stripWs l)).isEmpty &&
              !(S.contains (stripTags (stripWs l)))) = false := by
            rw [h4]
            simp
          rw [vttStep_content_dead _ _ (by simpa using h1) (by simpa using h2) hdead,
            rawVttStep_content_empty _ _ (by simpa using h1) (by simpa using h2) h4,
            ih E t S]
        · have h4f : (stripTags (stripWs l)).isEmpty = false := by simpa using h4
          by_cases h5 : S.contains (stripTags (stripWs l))
          · have hdead : (!(stripTags (stripWs l)).isEmpty &&
                !(S.contains (stripTags (stripWs l)))) = false := by
              rw [h5]
              simp
            rw [vttStep_content_dead _ _ (by simpa using h1) (by simpa using h2) hdead,
              rawVttStep_content _ _ (by simpa using h1) (by simpa using h2) h4f]
            dsimp only
            rw [List.nil_append, rawFold_append ls]
            dsimp only
            rw [List.singleton_append, dedupAux_cons_seen h5, ih]
          · have h5f : S.contains (stripTags (stripWs l)) = false := by simpa using h5
            have halive : (!(stripTags (stripWs l)).isEmpty &&
                !(S.contains (stripTags (stripWs l)))) = true := by
              rw [h4f, h5f]
              rfl
            rw [vttStep_content_new _ _ (by simpa using h1) (by simpa using h2) halive,
              rawVttStep_content _ _ (by simpa using h1) (by simpa using h2) h4f]
            dsimp only
            rw [List.nil_append, rawFold_append ls]
            dsimp only
            rw [List.singleton_append, dedupAux_cons_new h5f, ih]
            simp [List.append_assoc]

theorem dedupAux_texts_nodup : ∀ (es : List TranscriptEntry) (S : List Str),
    ((dedupAux es S).1.map (·.text)).Nodup ∧
    (∀ x ∈ (dedupAux es S).1.map (·.text), S.contains x = false) := by
  intro es
  induction es with
  | nil => intro S; simp [dedupAux]
  | cons e es ih =>
    intro S
    obtain ⟨ts, cl⟩ := e
    by_cases h : S.contains cl
    · rw [dedupAux_cons_seen h]
      exact ih S
    · have hf : S.contains cl = false := by simpa using h
      rw [dedupAux_cons_new hf]
      have ihc := ih (cl :: S)
      constructor
      · rw [List.map_cons, List.nodup_cons]
        refine ⟨?_, ihc.1⟩
        intro hmem
        have := ihc.2 cl hmem
        simp at this
      · intro x hx
        rw [List.map_cons] at hx
        rcases List.mem_cons.mp hx with hx1 | hx2
        · rw [hx1]
          exact hf
        · have := ihc.2 x hx2
          rw [List.contains_cons] at this
          simp only [Bool.or_eq_false_iff] at this
          exact this.2

/-- Claim C5: deduplication of the cue parser is global over the whole
parse — the parsed cue sequence equals the global first-occurrence filter
(by exact, case-sensitive text) of the undeduplicated cue stream,
regardless of the timestamps under which repeated texts appear, and the
emitted texts are pairwise distinct. -/
theorem c5_global_dedup (content : Str) :
    parse_vtt_transcript content = keepFirstByText (rawCues content) ∧
    ((parse_vtt_transcript content).map (·.text)).Nodup := by
  have h := vtt_fold_dedup (content.splitOn '\n') [] none []
  constructor
  · unfold parse_vtt_transcript keepFirstByText rawCues
    rw [h]
    simp
  · unfold parse_vtt_transcript
    rw [h]
    dsimp only
    rw [List.nil_append]
    exact (dedupAux_texts_nodup _ []).1

/-! Claim C7: the sanitized year component. -/

theorem length_rstripChar_le (sep : Char) (l : Str) :
    (rstripChar sep l).length ≤ l.length := by
  unfold rstripChar
  rw [List.length_reverse]
  have h := ((l.reverse).dropWhile_suffix (· == sep)).sublist.length_le
  simpa using h

theorem sanitize_cases (text : Str) (m : Nat) (sep : Char) :
    sanitize_for_filename text m sep = "untitled".toList ∨
    (sanitize_for_filename text m sep ≠ [] ∧
      (sanitize_for_filename text m sep).length ≤ m) := by
  unfold sanitize_for_filename
  by_cases h0 : text.isEmpty
  · rw [if_pos h0]
    exact Or.inl rfl
  · rw [if_neg h0]
    dsimp only
    set c5 := stripChar sep (collapseRuns (fun c => c == sep) sep
      (collapseRuns isPySpace sep (stripWs
        ((text.filter (fun c => !pyForbiddenChar c)).filter keepWordSpaceHyphen)))) with hc5
    set c6 := if m < c5.length then rstripChar sep (c5.take m) else c5 with hc6
    by_cases h6 : c6.isEmpty
    · rw [if_pos h6]
      exact Or.inl rfl
    · rw [if_neg h6]
      refine Or.inr ⟨by simpa using h6, ?_⟩
      rw [hc6]
      by_cases htr : m < c5.length
      · rw [if_pos htr]
        calc (rstripChar sep (c5.take m)).length
            ≤ (c5.take m).length := length_rstripChar_le _ _
          _ ≤ m := by simp [List.length_take]
      · rw [if_neg htr]
        omega

/-- Claim C7, counterexample: the empty year sanitizes to the placeholder
`untitled`, which has 8 characters — more than the 4-character cap the
claim asserts for every input. -/
theorem c7_counterexample :
    sanitize_for_filename [] 4 '_' = "untitled".toList ∧
    (sanitize_for_filename [] 4 '_').length = 8 ∧
    ¬ (sanitize_for_filename [] 4 '_').length ≤ 4 := by
  refine ⟨by decide, by decide, by decide⟩

/-- Claim C7 (amended): the sanitized year component of the composed
filename is never empty, and it is either the literal placeholder
`untitled` (substituted when sanitization would otherwise yield the empty
string, and exceeding the cap at 8 characters) or a string of at most 4
characters; `build_filename` composes exactly this component after the
author and topic components. -/
theorem c7_year_component (year : Str) :
    sanitize_for_filename year 4 '_' ≠ [] ∧
    (sanitize_for_filename year 4 '_' = "untitled".toList ∨
      (sanitize_for_filename year 4 '_').length ≤ 4) ∧
    (∀ author topic : Str, ∀ ml : Nat, build_filename author topic year ml =
      sanitize_for_filename author 30 '_' ++ ('_' :: sanitize_for_filename topic ml '_') ++
        ('_' :: sanitize_for_filename year 4 '_')) := by
  rcases sanitize_cases year 4 '_' with h | h
  · exact ⟨by rw [h]; decide, Or.inl h, fun _ _ _ => rfl⟩
  · exact ⟨h.1, Or.inr h.2, fun _ _ _ => rfl⟩

/-! Claim C8: idempotence of sanitization (default separator). -/

theorem good_not_forbidden {c : Char} (h : (isPyWord c || c.toNat = 45) = true) :
    pyForbiddenChar c = false := by
  rw [Bool.eq_false_iff]
  simp only [isPyWord, pyForbiddenChar, Bool.or_eq_true, Bool.and_eq_true,
    decide_eq_true_eq, ne_eq] at h ⊢
  omega

theorem good_keep {c : Char} (h : (isPyWord c || c.toNat = 45) = true) :
    keepWordSpaceHyphen c = true := by
  simp only [keepWordSpaceHyphen, Bool.or_eq_true] at *
  rcases h with h | h
  · exact Or.inl (Or.inl h)
  · exact Or.inr h

theorem good_not_space {c : Char} (h : (isPyWord c || c.toNat = 45) = true) :
    isPySpace c = false := by
  rw [Bool.eq_false_iff]
  simp only [isPyWord, isPySpace, Bool.or_eq_true, Bool.and_eq_true,
    decide_eq_true_eq, ne_eq] at h ⊢
  omega

theorem keep_not_space_good {c : Char} (hk : keepWordSpaceHyphen c = true)
    (hs : isPySpace c = false) : (isPyWord c || c.toNat = 45) = true := by
  simp only [keepWordSpaceHyphen, Bool.or_eq_true] at hk
  rcases hk with (h | h) | h
  · simp [h]
  · rw [h] at hs
    exact absurd hs (by simp)
  · simp [h]

theorem underscore_good : (isPyWord '_' || '_'.toNat = 45) = true := by decide

theorem collapseRuns_eq_self_of_none {p : Char → Bool} {sep : Char} :
    ∀ l : Str, (∀ c ∈ l, p c = false) → collapseRuns p sep l = l := by
  unfold collapseRuns
  intro l
  induction l with
  | nil => intro _; rfl
  | cons c cs ih =>
    intro h
    unfold collapseRunsAux
    rw [if_neg (by rw [h c (by simp)]; simp)]
    rw [ih (fun d hd => h d (by simp [hd]))]

theorem collapse_sep_switch {sep : Char} (l : Str) (h : l.head? ≠ some sep) :
    collapseRunsAux (fun c => c == sep) sep true l =
      collapseRunsAux (fun c => c == sep) sep false l := by
  cases l with
  | nil => rfl
  | cons c cs =>
    have hne : c ≠ sep := fun e => h (by rw [e]; rfl)
    have hc : (c == sep) = false := beq_eq_false_iff_ne.mpr hne
    unfold collapseRunsAux
    rw [if_neg (by rw [hc]; simp), if_neg (by rw [hc]; simp)]

theorem collapse_sep_eq_self {sep : Char} :
    ∀ l : Str, l.Chain' (fun a b => ¬(a = sep ∧ b = sep)) →
      collapseRuns (fun c => c == sep) sep l = l := by
  unfold collapseRuns
  intro l
  induction l with
  | nil => intro _; rfl
  | cons c cs ih =>
    intro hch
    rw [List.chain'_cons'] at hch
    by_cases hc : c = sep
    · have hpc : (c == sep) = true := beq_iff_eq.mpr hc
      unfold collapseRunsAux
      rw [if_pos (by rw [hpc])]
      have hhead : cs.head? ≠ some sep := by
        intro hsome
        exact hch.1 sep hsome ⟨hc, rfl⟩
      rw [collapse_sep_switch cs hhead, ih hch.2, hc]
      simp
    · have hpc : (c == sep) = false := beq_eq_false_iff_ne.mpr hc
      unfold collapseRunsAux
      rw [if_neg (by rw [hpc]; simp)]
      rw [ih hch.2]

theorem dropWhile_beq_eq_self {sep : Char} {l : Str} (h : l.head? ≠ some sep) :
    l.dropWhile (· == sep) = l := by
  cases l with
  | nil => rfl
  | cons c cs =>
    have hne : c ≠ sep := fun e => h (by rw [e]; rfl)
    simp [List.dropWhile_cons, beq_eq_false_iff_ne.mpr hne]

theorem lstripChar_eq_self {sep : Char} {l : Str} (h : l.head? ≠ some sep) :
    lstripChar sep l = l :=
  dropWhile_beq_eq_self h

theorem rstripChar_eq_self {sep : Char} {l : Str} (h : l.getLast? ≠ some sep) :
    rstripChar sep l = l := by
  unfold rstripChar
  have hr : l.reverse.head? ≠ some sep := by
    rw [List.head?_reverse]
    exact h
  rw [dropWhile_beq_eq_self hr, List.reverse_reverse]

theorem stripWs_eq_self {l : Str} (h : ∀ c ∈ l, isPySpace c = false) :
    stripWs l = l := by
  unfold stripWs lstripWs rstripWs
  rw [dropWhile_eq_self_none (fun c hc => h c (List.mem_reverse.mp hc)),
    List.reverse_reverse, dropWhile_eq_self_none h]

theorem sanitize_eq_self {m : Nat} {l : Str} (h : SanitizedInv m l) :
    sanitize_for_filename l m '_' = l := by
  obtain ⟨hne, hgood, hch, hhd, hlast, hlen⟩ := h
  unfold sanitize_for_filename
  rw [if_neg (by cases l with | nil => exact absurd rfl hne | cons c cs => simp)]
  dsimp only
  rw [List.filter_eq_self.mpr
    (fun c hc => good_keep (hgood c (List.mem_filter.mp hc).1))]
  rw [List.filter_eq_self.mpr
    (fun c hc => by rw [good_not_forbidden (hgood c hc)]; rfl)]
  rw [stripWs_eq_self (fun c hc => good_not_space (hgood c hc))]
  rw [collapseRuns_eq_self_of_none l (fun c hc => good_not_space (hgood c hc))]
  rw [collapse_sep_eq_self l hch]
  unfold stripChar
  rw [rstripChar_eq_self hlast, lstripChar_eq_self hhd]
  rw [if_neg (show ¬(m < l.length) by omega)]
  rw [if_neg (by cases l with | nil => exact absurd rfl hne | cons c cs => simp)]

theorem mem_collapseRunsAux {p : Char → Bool} {sep : Char} :
    ∀ (l : Str) (inRun : Bool) (c : Char), c ∈ collapseRunsAux p sep inRun l →
      c = sep ∨ (c ∈ l ∧ p c = false) := by
  intro l
  induction l with
  | nil => intro inRun c h; simp [collapseRunsAux] at h
  | cons d ds ih =>
    intro inRun c h
    unfold collapseRunsAux at h
    by_cases hd : p d
    · rw [if_pos (by rw [hd])] at h
      cases inRun with
      | true =>
        rw [if_pos rfl] at h
        rcases ih true c h with h1 | h2
        · exact Or.inl h1
        · exact Or.inr ⟨by simp [h2.1], h2.2⟩
      | false =>
        rw [if_neg (by simp)] at h
        rcases List.mem_cons.mp h with h1 | h1
        · exact Or.inl h1
        · rcases ih true c h1 with h2 | h2
          · exact Or.inl h2
          · exact Or.inr ⟨by simp [h2.1], h2.2⟩
    · rw [if_neg (by simpa using hd)] at h
      rcases List.mem_cons.mp h with h1 | h1
      · exact Or.inr ⟨by simp [h1], by rw [h1]; simpa using hd⟩
      · rcases ih false c h1 with h2 | h2
        · exact Or.inl h2
        · exact Or.inr ⟨by simp [h2.1], h2.2⟩

theorem mem_collapseRuns {p : Char → Bool} {sep : Char} {l : Str} {c : Char}
    (h : c ∈ collapseRuns p sep l) : c = sep ∨ (c ∈ l ∧ p c = false) :=
  mem_collapseRunsAux l false c h

theorem mem_stripWs {c : Char} {l : Str} (h : c ∈ stripWs l) : c ∈ l := by
  unfold stripWs lstripWs rstripWs at h
  have h1 := (((l.reverse.dropWhile isPySpace).reverse.dropWhile_suffix isPySpace).sublist).mem h
  have h2 := ((l.reverse.dropWhile_suffix isPySpace).sublist).mem (List.mem_reverse.mp h1)
  exact List.mem_reverse.mp h2

theorem mem_lstripChar {sep c : Char} {l : Str} (h : c ∈ lstripChar sep l) : c ∈ l :=
  ((l.dropWhile_suffix (· == sep)).sublist).mem h

theorem mem_rstripChar {sep c : Char} {l : Str} (h : c ∈ rstripChar sep l) : c ∈ l := by
  unfold rstripChar at h
  exact List.mem_reverse.mp
    (((l.reverse.dropWhile_suffix (· == sep)).sublist).mem (List.mem_reverse.mp h))

theorem collapse_sep_aux_head {sep : Char} :
    ∀ (l : Str) (b : Char),
      (collapseRunsAux (fun c => c == sep) sep true l).head? = some b →
      (b == sep) = false := by
  intro l
  induction l with
  | nil => intro b h; simp [collapseRunsAux] at h
  | cons d ds ih =>
    intro b h
    unfold collapseRunsAux at h
    by_cases hd : (d == sep) = true
    · rw [if_pos (by rw [hd]), if_pos rfl] at h
      exact ih b h
    · rw [if_neg (by simpa using hd)] at h
      cases h
      simpa using hd

theorem collapse_sep_chain {sep : Char} :
    ∀ (l : Str) (inRun : Bool),
      (collapseRunsAux (fun c => c == sep) sep inRun l).Chain'
        (fun a b => ¬(a = sep ∧ b = sep)) := by
  intro l
  induction l with
  | nil => intro inRun; simp [collapseRunsAux]
  | cons d ds ih =>
    intro inRun
    unfold collapseRunsAux
    by_cases hd : (d == sep) = true
    · rw [if_pos (by rw [hd])]
      cases inRun with
      | true =>
        rw [if_pos rfl]
        exact ih true
      | false =>
        rw [if_neg (by simp)]
        rw [List.chain'_cons']
        refine ⟨?_, ih true⟩
        intro b hb hand
        have hbne := collapse_sep_aux_head ds b hb
        rw [beq_eq_false_iff_ne] at hbne
        exact hbne hand.2
    · rw [if_neg (by simpa using hd)]
      rw [List.chain'_cons']
      refine ⟨?_, ih false⟩
      intro b hb hand
      exact (beq_eq_false_iff_ne.mp (by simpa using hd)) hand.1

theorem chain'_symm_reverse {sep : Char} {l : Str}
    (h : l.Chain' (fun a b => ¬(a = sep ∧ b = sep))) :
    l.reverse.Chain' (fun a b => ¬(a = sep ∧ b = sep)) := by
  rw [List.chain'_reverse]
  exact List.Chain'.imp (fun a b hab hand => hab ⟨hand.2, hand.1⟩) h

theorem chain'_lstripChar {sep : Char} {l : Str}
    (h : l.Chain' (fun a b => ¬(a = sep ∧ b = sep))) :
    (lstripChar sep l).Chain' (fun a b => ¬(a = sep ∧ b = sep)) :=
  List.Chain'.infix h (l.dropWhile_suffix (· == sep)).isInfix

theorem chain'_rstripChar {sep : Char} {l : Str}
    (h : l.Chain' (fun a b => ¬(a = sep ∧ b = sep))) :
    (rstripChar sep l).Chain' (fun a b => ¬(a = sep ∧ b = sep)) := by
  unfold rstripChar
  exact chain'_symm_reverse
    ( List.Chain'.infix (chain'_symm_reverse h)
      (l.reverse.dropWhile_suffix (· == sep)).isInfix)

theorem head?_dropWhile_ne {p : Char → Bool} (l : Str) {b : Char}
    (h : (l.dropWhile p).head? = some b) : p b = false := by
  have hh := List.head?_dropWhile_not p l
  rw [h] at hh
  exact hh

theorem getLast?_rstripChar_ne {sep : Char} (l : Str) {b : Char}
    (h : (rstripChar sep l).getLast? = some b) : (b == sep) = false := by
  unfold rstripChar at h
  rw [List.getLast?_reverse] at h
  exact @head?_dropWhile_ne (fun x => x == sep) l.reverse b h

theorem getLast?_suffix_of_ne_nil {s y : Str} (h : s <:+ y) (hne : s ≠ []) :
    s.getLast? = y.getLast? := by
  obtain ⟨t, rfl⟩ := h
  rw [← List.head?_reverse, ← List.head?_reverse, List.reverse_append,
    List.head?_append_of_ne_nil _ (by simpa using hne)]

theorem rstripChar_isPrefix (sep : Char) (l : Str) : rstripChar sep l <+: l := by
  unfold rstripChar
  conv_rhs => rw [← List.reverse_reverse l]
  exact List.reverse_prefix.mpr (l.reverse.dropWhile_suffix (· == sep))

theorem head?_of_isPrefix {s x : Str} {b : Char} (h : s <+: x)
    (hb : s.head? = some b) : x.head? = some b := by
  obtain ⟨t, rfl⟩ := h
  rw [List.head?_append_of_ne_nil _ (by rintro rfl; simp at hb)]
  exact hb

theorem head?_take_pos {n : Nat} (hn : 0 < n) (l : Str) :
    (l.take n).head? = l.head? := by
  cases l with
  | nil => simp
  | cons c cs =>
    cases n with
    | zero => omega
    | succ k => simp

theorem sanitize_inv (text : Str) (m : Nat) (hm : 8 ≤ m) :
    SanitizedInv m (sanitize_for_filename text m '_') := by
  have huchain : List.Chain' (fun a b => ¬(a = '_' ∧ b = '_')) ("untitled".toList) := by
    rw [show "untitled".toList = ['u', 'n', 't', 'i', 't', 'l', 'e', 'd'] from rfl]
    repeat' constructor
    all_goals decide
  have huntitled : SanitizedInv m ("untitled".toList) := by
    refine ⟨by decide, by decide, huchain, by decide, by decide, ?_⟩
    have h8 : ("untitled".toList).length = 8 := by decide
    omega
  unfold sanitize_for_filename
  by_cases h0 : text.isEmpty
  · rw [if_pos h0]
    exact huntitled
  · rw [if_neg h0]
    dsimp only
    set c2 := (text.filter (fun c => !pyForbiddenChar c)).filter keepWordSpaceHyphen with hc2
    set c3 := collapseRuns isPySpace '_' (stripWs c2) with hc3
    set c4 := collapseRuns (fun c => c == '_') '_' c3 with hc4
    set c5 := stripChar '_' c4 with hc5
    set c6 := if m < c5.length then rstripChar '_' (c5.take m) else c5 with hc6
    by_cases h6 : c6.isEmpty
    · rw [if_pos h6]
      exact huntitled
    · rw [if_neg h6]
      have hgood3 : ∀ c ∈ c3, (isPyWord c || c.toNat = 45) = true := by
        intro c hc
        rw [hc3] at hc
        rcases mem_collapseRuns hc with h | ⟨hmem, hsp⟩
        · rw [h]
          exact underscore_good
        · have hmem2 := mem_stripWs hmem
          rw [hc2] at hmem2
          have hf := List.mem_filter.mp hmem2
          exact keep_not_space_good hf.2 hsp
      have hgood4 : ∀ c ∈ c4, (isPyWord c || c.toNat = 45) = true := by
        intro c hc
        rw [hc4] at hc
        rcases mem_collapseRuns hc with h | ⟨hmem, _⟩
        · rw [h]
          exact underscore_good
        · exact hgood3 c hmem
      have hgood5 : ∀ c ∈ c5, (isPyWord c || c.toNat = 45) = true := by
        intro c hc
        rw [hc5] at hc
        unfold stripChar at hc
        exact hgood4 c (mem_rstripChar (mem_lstripChar hc))
      have hch4 : c4.Chain' (fun a b => ¬(a = '_' ∧ b = '_')) := by
        rw [hc4]
        exact collapse_sep_chain c3 false
      have hch5 : c5.Chain' (fun a b => ¬(a = '_' ∧ b = '_')) := by
        rw [hc5]
        unfold stripChar
        exact chain'_lstripChar (chain'_rstripChar hch4)
      have hhd5 : ∀ b, c5.head? = some b → (b == '_') = false := by
        intro b hb
        rw [hc5] at hb
        unfold stripChar lstripChar at hb
        exact @head?_dropWhile_ne (fun x => x == '_') (rstripChar '_' c4) b hb
      have hlast5 : ∀ b, c5.getLast? = some b → (b == '_') = false := by
        intro b hb
        rw [hc5] at hb
        unfold stripChar lstripChar at hb
        by_cases hnil : (rstripChar '_' c4).dropWhile (· == '_') = []
        · rw [hnil] at hb
          simp at hb
        · rw [getLast?_suffix_of_ne_nil
            ((rstripChar '_' c4).dropWhile_suffix (· == '_')) hnil] at hb
          exact getLast?_rstripChar_ne c4 hb
      by_cases htr : m < c5.length
      · have hc6' : c6 = rstripChar '_' (c5.take m) := by rw [hc6, if_pos htr]
        rw [hc6'] at h6 ⊢
        refine ⟨by simpa using h6, ?_, ?_, ?_, ?_, ?_⟩
        · intro c hc
          exact hgood5 c (List.mem_of_mem_take (mem_rstripChar hc))
        · exact chain'_rstripChar ( List.Chain'.infix hch5 ((c5.take_prefix m).isInfix))
        · intro hbad
          have h1 := head?_of_isPrefix (rstripChar_isPrefix '_' (c5.take m)) hbad
          have h2 := head?_of_isPrefix (c5.take_prefix m) h1
          exact absurd (hhd5 '_' h2) (by decide)
        · intro hbad
          exact absurd (getLast?_rstripChar_ne (c5.take m) hbad) (by decide)
        · calc (rstripChar '_' (c5.take m)).length
              ≤ (c5.take m).length := length_rstripChar_le _ _
            _ ≤ m := by simp [List.length_take]
      · have hc6' : c6 = c5 := by rw [hc6, if_neg htr]
        rw [hc6'] at h6 ⊢
        refine ⟨by simpa using h6, hgood5, hch5, ?_, ?_, by omega⟩
        · intro hbad
          exact absurd (hhd5 '_' hbad) (by decide)
        · intro hbad
          exact absurd (hlast5 '_' hbad) (by decide)

/-- Claim C8, counterexample: with the default separator and a cap of 4,
sanitizing the empty string yields the fallback `untitled`, and sanitizing
that output again truncates it to `unti` — sanitization is not idempotent
as claimed for every fixed max length. -/
theorem c8_counterexample :
    sanitize_for_filename [] 4 '_' = "untitled".toList ∧
    sanitize_for_filename (sanitize_for_filename [] 4 '_') 4 '_' = "unti".toList ∧
    sanitize_for_filename (sanitize_for_filename [] 4 '_') 4 '_' ≠
      sanitize_for_filename [] 4 '_' := by
  refine ⟨by decide, by decide, by decide⟩

/-- Claim C8 (amended): with the default separator `'_'` and any max
length of at least 8 (the length of the `untitled` placeholder, which the
fallback returns untruncated), sanitization is idempotent — applying
`sanitize_for_filename` to its own output returns that output unchanged.
For smaller caps the fallback exceeds the cap and a second application
truncates it. -/
theorem c8_sanitize_idempotent (text : Str) (m : Nat) (hm : 8 ≤ m) :
    sanitize_for_filename (sanitize_for_filename text m '_') m '_' =
      sanitize_for_filename text m '_' :=
  sanitize_eq_self (sanitize_inv text m hm)

/-- Claim C8, witness: idempotence applied at the default cap 50 to a
messy author string. -/
theorem c8_sanitize_idempotent_witness :
    8 ≤ 50 ∧
    sanitize_for_filename "  Jordan  Peterson: Maps? ".toList 50 '_' =
      "Jordan_Peterson_Maps".toList ∧
    sanitize_for_filename (sanitize_for_filename "  Jordan  Peterson: Maps? ".toList 50 '_') 50 '_' =
      sanitize_for_filename "  Jordan  Peterson: Maps? ".toList 50 '_' :=
  ⟨by decide, by decide,
    c8_sanitize_idempotent ("  Jordan  Peterson: Maps? ".toList) 50 (by decide)⟩
